import Mathlib

/-!
# Verification of the DECA decode pipeline (`decalib/deca.py`)

Shallow embedding of the deterministic tensor operations of `DECA`:
`decompose_code`, `displacement2normal`, `visofp`, the orthographic
projection convention, the texture ground-truth compositing of `decode`,
and the `visualize` composer.  Tensors are modelled per batch row as
lists (flat vectors, channel lists) or as texel-indexed functions into
`ℚ`; external collaborators (renderer resampling, `util.vertex_normals`)
are abstracted as function parameters.
-/

set_option maxRecDepth 8000

namespace Deca

/-- Errors a decode-pipeline call can raise.  `reshapeMismatch` is the
runtime failure of `reshape(batch, 9, 3)` on a slice whose row does not
hold exactly 27 entries; `invalidAxis` is the failed
`assert dim == 1 or dim == 2` of `visualize`; `nameError` is Python's
unbound-local failure. -/
inductive DecaErr
  | reshapeMismatch
  | invalidAxis
  | nameError
  deriving DecidableEq, Repr

/-- A block of the code dictionary: either a flat slice `(batch, w)` or
the lighting block reshaped to `(batch, 9, 3)` (one row modelled here). -/
inductive Block
  | flat : List ℚ → Block
  | mat : List (List ℚ) → Block
  deriving DecidableEq, Repr

/-- Flattening a block back to the slice it was cut from. -/
def Block.flatten : Block → List ℚ
  | .flat l => l
  | .mat m => m.flatten

/-- Split a row into consecutive groups of three entries, the row-major
layout of `reshape(batch, 9, 3)` applied to a width-27 slice. -/
def chunks3 {α : Type} : List α → List (List α)
  | a :: b :: c :: rest => [a, b, c] :: chunks3 rest
  | [] => []
  | l => [l]

/-- `decompose_code`, lower levels: walk the ordered `num_dict`, cutting
`code[:, start:end]` for each key (Python slices clamp at the row length,
hence `drop`/`take`), reshaping the `light` slice to `(9, 3)`.  The
reshape is the only fallible step: it needs exactly 27 entries. -/
def decomposeFrom (row : List ℚ) : Nat → List (String × Nat) → Except DecaErr (List (String × Block))
  | _, [] => .ok []
  | start, (key, w) :: rest =>
    let slice := (row.drop start).take w
    if key = "light" then
      if slice.length = 27 then
        match decomposeFrom row (start + w) rest with
        | .ok tail => .ok ((key, .mat (chunks3 slice)) :: tail)
        | .error e => .error e
      else .error .reshapeMismatch
    else
      match decomposeFrom row (start + w) rest with
      | .ok tail => .ok ((key, .flat slice) :: tail)
      | .error e => .error e

/-- `DECA.decompose_code(code, num_dict)` on one batch row: slice the flat
vector contiguously in `num_dict` order starting at offset 0. -/
def decompose_code (row : List ℚ) (num_dict : List (String × Nat)) : Except DecaErr (List (String × Block)) :=
  decomposeFrom row 0 num_dict

/-- Sum of the widths declared by a parameter block spec. -/
def sumWidths (num_dict : List (String × Nat)) : Nat :=
  (num_dict.map Prod.snd).sum

/-- The stock DECA block spec: `num_list = [n_shape, n_tex, n_exp,
n_pose, n_cam, n_light]` with the standard widths, lighting 9 × 3. -/
def decaParamDict : List (String × Nat) :=
  [("shape", 100), ("tex", 50), ("exp", 50), ("pose", 6), ("cam", 3), ("light", 27)]

theorem chunks3_flatten {α : Type} : ∀ l : List α, (chunks3 l).flatten = l
  | [] => rfl
  | [a] => rfl
  | [a, b] => rfl
  | a :: b :: c :: rest => by
    simp [chunks3, chunks3_flatten rest]

theorem chunks3_shape {α : Type} : ∀ (n : Nat) (l : List α), l.length = 3 * n →
    (chunks3 l).length = n ∧ ∀ r ∈ chunks3 l, r.length = 3
  | 0, [], _ => by simp [chunks3]
  | 0, a :: l, h => by simp [Nat.mul_zero] at h
  | n + 1, [], h => by simp [Nat.mul_succ] at h
  | n + 1, [a], h => by
    exfalso
    simp only [List.length_cons, List.length_nil, Nat.mul_succ] at h
    omega
  | n + 1, [a, b], h => by
    exfalso
    simp only [List.length_cons, List.length_nil, Nat.mul_succ] at h
    omega
  | n + 1, a :: b :: c :: rest, h => by
    have hr : rest.length = 3 * n := by
      simp only [List.length_cons, Nat.mul_succ] at h ⊢
      omega
    have ih := chunks3_shape n rest hr
    refine ⟨by simp [chunks3, ih.1], ?_⟩
    intro r hrmem
    simp only [chunks3, List.mem_cons] at hrmem
    rcases hrmem with h1 | h2
    · simp [h1]
    · exact ih.2 r h2

/-- Successful run of the slicer when the row is long enough: the blocks
concatenate back to the covered segment and the light block is 9 × 3. -/
theorem decomposeFrom_ok (row : List ℚ) :
    ∀ (spec : List (String × Nat)) (start : Nat),
      (∀ p ∈ spec, p.1 = "light" → p.2 = 27) →
      start + sumWidths spec ≤ row.length →
      ∃ d, decomposeFrom row start spec = .ok d ∧
        (d.map (fun p => p.2.flatten)).flatten = (row.drop start).take (sumWidths spec) ∧
        ∀ q ∈ d, q.1 = "light" → ∃ m, q.2 = .mat m ∧ m.length = 9 ∧ ∀ r ∈ m, r.length = 3 := by
  intro spec
  induction spec with
  | nil =>
    intro start _ _
    exact ⟨[], rfl, by simp [sumWidths], by simp⟩
  | cons p rest ih =>
    intro start hl hw
    obtain ⟨key, w⟩ := p
    have hsum : sumWidths ((key, w) :: rest) = w + sumWidths rest := by
      simp [sumWidths]
    have hwle : start + w ≤ row.length := by
      rw [hsum] at hw; omega
    have hslice : ((row.drop start).take w).length = w := by
      rw [List.length_take, List.length_drop]
      omega
    obtain ⟨tail, htail, hjoin, hlight⟩ :=
      ih (start + w) (fun q hq hq1 => hl q (List.mem_cons_of_mem _ hq) hq1)
        (by rw [hsum] at hw; omega)
    have hseg : (row.drop start).take (w + sumWidths rest) =
        (row.drop start).take w ++ (row.drop (start + w)).take (sumWidths rest) := by
      rw [List.take_add]
      congr 1
      rw [List.drop_drop]
    by_cases hkey : key = "light"
    · have hw27 : w = 27 := hl (key, w) (List.mem_cons_self _ _) hkey
      have hlen27 : ((row.drop start).take w).length = 27 := by rw [hslice, hw27]
      have hshape := chunks3_shape 9 ((row.drop start).take w) (by rw [hlen27])
      refine ⟨(key, .mat (chunks3 ((row.drop start).take w))) :: tail, ?_, ?_, ?_⟩
      · simp [decomposeFrom, hkey, hlen27, htail]
      · rw [List.map_cons, List.flatten_cons, hjoin, hsum, hseg]
        congr 1
        exact chunks3_flatten _
      · intro q hq hq1
        rcases List.mem_cons.1 hq with h1 | h2
        · exact ⟨chunks3 ((row.drop start).take w), by rw [h1], hshape.1, hshape.2⟩
        · exact hlight q h2 hq1
    · refine ⟨(key, .flat ((row.drop start).take w)) :: tail, ?_, ?_, ?_⟩
      · simp only [decomposeFrom, if_neg hkey, htail]
      · rw [List.map_cons, List.flatten_cons, hjoin, hsum, hseg]
        rfl
      · intro q hq hq1
        rcases List.mem_cons.1 hq with h1 | h2
        · exact absurd (by rw [h1] at hq1; exact hq1) hkey
        · exact hlight q h2 hq1

/-- C1: for every flat row whose width equals the sum of the widths of
the block spec (lighting declared 9 × 3 = 27 wide), `decompose_code`
succeeds, concatenating the blocks in spec order — the lighting block
flattened back from its `(9, 3)` form — reconstructs the row exactly,
and the lighting block has shape `(9, 3)` per batch row. -/
theorem decompose_code_roundtrip (row : List ℚ) (spec : List (String × Nat))
    (hl : ∀ p ∈ spec, p.1 = "light" → p.2 = 27)
    (hw : row.length = sumWidths spec) :
    ∃ d, decompose_code row spec = .ok d ∧
      (d.map (fun p => p.2.flatten)).flatten = row ∧
      ∀ q ∈ d, q.1 = "light" → ∃ m, q.2 = .mat m ∧ m.length = 9 ∧ ∀ r ∈ m, r.length = 3 := by
  obtain ⟨d, hd, hjoin, hlight⟩ := decomposeFrom_ok row spec 0 hl (by omega)
  refine ⟨d, hd, ?_, hlight⟩
  rw [hjoin, List.drop_zero, ← hw, List.take_length]

/-- Witness for C1 at the stock spec and a width-236 row. -/
theorem decompose_code_roundtrip_witness :
    (∀ p ∈ decaParamDict, p.1 = "light" → p.2 = 27) ∧
    (List.replicate 236 (0 : ℚ)).length = sumWidths decaParamDict ∧
    ∃ d, decompose_code (List.replicate 236 (0 : ℚ)) decaParamDict = .ok d ∧
      (d.map (fun p => p.2.flatten)).flatten = List.replicate 236 (0 : ℚ) ∧
      ∀ q ∈ d, q.1 = "light" → ∃ m, q.2 = .mat m ∧ m.length = 9 ∧ ∀ r ∈ m, r.length = 3 :=
  ⟨by decide, by simp [decaParamDict, sumWidths],
    decompose_code_roundtrip (List.replicate 236 (0 : ℚ)) decaParamDict (by decide)
      (by simp [decaParamDict, sumWidths])⟩

/-- Whether a decompose run succeeded (no exception raised). -/
def decomposeOk (e : Except DecaErr (List (String × Block))) : Bool :=
  match e with
  | .ok _ => true
  | .error _ => false

/-- C2 counterexample: a row one column wider than the declared total
(237 vs 236) makes `decompose_code` return normally — no `ShapeMismatch`
is raised; the surplus column is silently dropped. -/
theorem decompose_code_no_width_check :
    (List.replicate 237 (0 : ℚ)).length ≠ sumWidths decaParamDict ∧
    decomposeOk (decompose_code (List.replicate 237 (0 : ℚ)) decaParamDict) = true := by
  constructor
  · simp [decaParamDict, sumWidths]
  · rfl

/-- C2 amended: `decompose_code` performs no total-width validation.
Whenever the row is at least as wide as the declared sum (lighting
27 wide), it succeeds, and the concatenated blocks are exactly the first
`sumWidths` columns of the row — surplus trailing columns are silently
dropped instead of raising `ShapeMismatch`. -/
theorem decompose_code_silent_drop (row : List ℚ) (spec : List (String × Nat))
    (hl : ∀ p ∈ spec, p.1 = "light" → p.2 = 27)
    (hw : sumWidths spec ≤ row.length) :
    ∃ d, decompose_code row spec = .ok d ∧
      (d.map (fun p => p.2.flatten)).flatten = row.take (sumWidths spec) := by
  obtain ⟨d, hd, hjoin, _⟩ := decomposeFrom_ok row spec 0 hl (by omega)
  exact ⟨d, hd, by rw [hjoin, List.drop_zero]⟩

/-- Witness for the amended C2 at the stock spec and a width-237 row. -/
theorem decompose_code_silent_drop_witness :
    sumWidths decaParamDict ≤ (List.replicate 237 (0 : ℚ)).length ∧
    ∃ d, decompose_code (List.replicate 237 (0 : ℚ)) decaParamDict = .ok d ∧
      (d.map (fun p => p.2.flatten)).flatten = (List.replicate 237 (0 : ℚ)).take (sumWidths decaParamDict) :=
  ⟨by simp [decaParamDict, sumWidths],
    decompose_code_silent_drop (List.replicate 237 (0 : ℚ)) decaParamDict (by decide)
      (by simp [decaParamDict, sumWidths])⟩

/-! ## Texture ground-truth extraction and compositing (`decode`, lines 306–319)

Buffers are texel-indexed: a texel type `ι` stands for the `(batch, H, W)`
index space of the UV atlas.  `uv_gt` (image-sampled color) and
`uv_texture` (albedo × shading) carry a channel list per texel; the static
face/eye mask and the validity buffer (`uv_gt_mask`, a constant-ones image
sampled at the same grid) carry one scalar per texel. -/

/-- One channel of `uv_gt[:,:3]*mask + uv_texture[:,:3]*(1-mask)`. -/
def blendScalar (m a b : ℚ) : ℚ :=
  a * m + b * (1 - m)

/-- The per-texel blend over the (up to three) color channels. -/
def blendChannels (m : ℚ) (a b : List ℚ) : List ℚ :=
  List.zipWith (fun x y => blendScalar m x y) a b

/-- `uv_face_eye_mask = self.uv_face_eye_mask * uv_gt_mask`: the composite
mask is the static face/eye mask times the sampling-validity buffer. -/
def compositeMask {ι : Type} (faceEyeMask validity : ι → ℚ) : ι → ℚ :=
  fun t => faceEyeMask t * validity t

/-- `uv_texture_gt` of `DECA.decode`: with the textured-albedo model
(`use_tex`) the sampled color (first three channels) is blended with the
synthesized texture under the composite mask; without it the sampled
color's first three channels are returned directly. -/
def uv_texture_gt {ι : Type} (use_tex : Bool) (uv_gt uv_texture : ι → List ℚ)
    (mask : ι → ℚ) : ι → List ℚ :=
  fun t =>
    if use_tex then blendChannels (mask t) ((uv_gt t).take 3) ((uv_texture t).take 3)
    else (uv_gt t).take 3

theorem blendChannels_one : ∀ a b : List ℚ, a.length = b.length → blendChannels 1 a b = a
  | [], [], _ => rfl
  | [], _ :: _, h => by simp at h
  | _ :: _, [], h => by simp at h
  | x :: a, y :: b, h => by
    simp only [blendChannels, List.zipWith_cons_cons, List.cons.injEq]
    refine ⟨by simp [blendScalar], ?_⟩
    exact blendChannels_one a b (by simpa using h)

theorem blendChannels_zero : ∀ a b : List ℚ, a.length = b.length → blendChannels 0 a b = b
  | [], [], _ => rfl
  | [], _ :: _, h => by simp at h
  | _ :: _, [], h => by simp at h
  | x :: a, y :: b, h => by
    simp only [blendChannels, List.zipWith_cons_cons, List.cons.injEq]
    refine ⟨by simp [blendScalar], ?_⟩
    exact blendChannels_zero a b (by simpa using h)

/-- C4: with the textured-albedo model enabled, if the composite mask
(static face/eye mask times validity buffer) is one at every texel the
output texture equals the sampled image buffer restricted to its first
three channels; if it is zero everywhere the output equals the
synthesized texture (albedo times shading), likewise restricted. -/
theorem uv_texture_gt_extremes {ι : Type} (faceEye valid : ι → ℚ) (g tex : ι → List ℚ)
    (hlen : ∀ t, (g t).length = (tex t).length) :
    ((∀ t, compositeMask faceEye valid t = 1) →
      ∀ t, uv_texture_gt true g tex (compositeMask faceEye valid) t = (g t).take 3) ∧
    ((∀ t, compositeMask faceEye valid t = 0) →
      ∀ t, uv_texture_gt true g tex (compositeMask faceEye valid) t = (tex t).take 3) := by
  have htake : ∀ t, ((g t).take 3).length = ((tex t).take 3).length := by
    intro t
    rw [List.length_take, List.length_take, hlen t]
  constructor
  · intro h1 t
    simp only [uv_texture_gt, if_pos rfl, h1 t]
    exact blendChannels_one _ _ (htake t)
  · intro h0 t
    simp only [uv_texture_gt, if_pos rfl, h0 t]
    exact blendChannels_zero _ _ (htake t)

/-- Witness for C4 on a one-texel atlas with an all-ones composite mask. -/
theorem uv_texture_gt_extremes_witness :
    (∀ t : Unit, ((fun _ : Unit => [(2:ℚ), 3, 5]) t).length = ((fun _ : Unit => [(7:ℚ), 11, 13]) t).length) ∧
    (∀ t : Unit, compositeMask (fun _ => (1:ℚ)) (fun _ => (1:ℚ)) t = 1) ∧
    (∀ t : Unit, uv_texture_gt true (fun _ => [(2:ℚ), 3, 5]) (fun _ => [(7:ℚ), 11, 13])
      (compositeMask (fun _ => (1:ℚ)) (fun _ => (1:ℚ))) t = [(2:ℚ), 3, 5]) :=
  ⟨by decide, by intro t; norm_num [compositeMask],
    fun t => by
      have h := (uv_texture_gt_extremes (ι := Unit) (fun _ => (1:ℚ)) (fun _ => (1:ℚ))
        (fun _ => [(2:ℚ), 3, 5]) (fun _ => [(7:ℚ), 11, 13]) (by decide)).1
        (by intro s; norm_num [compositeMask]) t
      simpa using h⟩

/-- C3 counterexample: with `use_tex` disabled, at a texel where the
composite mask is zero (outside the face/eye region) the output texture
still carries the full sampled color — the mask does not restrict
`uv_texture_gt`. -/
theorem uv_texture_gt_no_mask_restriction :
    compositeMask (fun _ : Unit => (0:ℚ)) (fun _ => (1:ℚ)) () = 0 ∧
    uv_texture_gt false (fun _ : Unit => [(1:ℚ), 1, 1]) (fun _ => [(0:ℚ), 0, 0])
      (compositeMask (fun _ => (0:ℚ)) (fun _ => (1:ℚ))) () = [(1:ℚ), 1, 1] := by
  constructor
  · norm_num [compositeMask]
  · rfl

/-- C3 amended: with `use_tex` disabled the final texture is the sampled
color buffer's first three channels at every texel, independent of both
the composite mask and the synthesized texture — the computed face/eye
composite mask is not applied to `uv_texture_gt` (it only feeds the
subsequent rendering call). -/
theorem uv_texture_gt_no_tex_is_sampled {ι : Type} (g tex tex' : ι → List ℚ)
    (mask mask' : ι → ℚ) (t : ι) :
    uv_texture_gt false g tex mask t = (g t).take 3 ∧
    uv_texture_gt false g tex mask t = uv_texture_gt false g tex' mask' t :=
  ⟨rfl, rfl⟩

/-- C8: if the static face/eye mask and the validity buffer are in
`[0,1]` at a texel, then the composite mask is in `[0,1]` there, and the
blend `sampled*mask + synthesized*(1-mask)` is a convex combination:
it lies between the two blended values at every channel. -/
theorem compositeMask_convex {ι : Type} (faceEye valid : ι → ℚ) (t : ι)
    (hf0 : 0 ≤ faceEye t) (hf1 : faceEye t ≤ 1)
    (hv0 : 0 ≤ valid t) (hv1 : valid t ≤ 1) :
    0 ≤ compositeMask faceEye valid t ∧ compositeMask faceEye valid t ≤ 1 ∧
    ∀ a b : ℚ, min a b ≤ blendScalar (compositeMask faceEye valid t) a b ∧
      blendScalar (compositeMask faceEye valid t) a b ≤ max a b := by
  have hm0 : 0 ≤ compositeMask faceEye valid t := mul_nonneg hf0 hv0
  have hm1 : compositeMask faceEye valid t ≤ 1 := by
    have := mul_le_mul hf1 hv1 hv0 (by norm_num)
    simpa [compositeMask] using this
  refine ⟨hm0, hm1, ?_⟩
  intro a b
  set m := compositeMask faceEye valid t with hm
  have ha : min a b ≤ a := min_le_left a b
  have hb : min a b ≤ b := min_le_right a b
  have ha' : a ≤ max a b := le_max_left a b
  have hb' : b ≤ max a b := le_max_right a b
  constructor
  · have h1 : 0 ≤ (a - min a b) * m := mul_nonneg (by linarith) hm0
    have h2 : 0 ≤ (b - min a b) * (1 - m) := mul_nonneg (by linarith) (by linarith)
    simp only [blendScalar]
    nlinarith
  · have h1 : 0 ≤ (max a b - a) * m := mul_nonneg (by linarith) hm0
    have h2 : 0 ≤ (max a b - b) * (1 - m) := mul_nonneg (by linarith) (by linarith)
    simp only [blendScalar]
    nlinarith

/-- Witness for C8 at a mask value 1/2 · 1/2 = 1/4. -/
theorem compositeMask_convex_witness :
    ((0:ℚ) ≤ 1/2 ∧ (1/2:ℚ) ≤ 1) ∧
    (0 ≤ compositeMask (fun _ : Unit => (1:ℚ)/2) (fun _ => (1:ℚ)/2) () ∧
      compositeMask (fun _ : Unit => (1:ℚ)/2) (fun _ => (1:ℚ)/2) () ≤ 1 ∧
      ∀ a b : ℚ, min a b ≤ blendScalar (compositeMask (fun _ : Unit => (1:ℚ)/2) (fun _ => (1:ℚ)/2) ()) a b ∧
        blendScalar (compositeMask (fun _ : Unit => (1:ℚ)/2) (fun _ => (1:ℚ)/2) ()) a b ≤ max a b) :=
  ⟨⟨by norm_num, by norm_num⟩,
    compositeMask_convex (fun _ : Unit => (1:ℚ)/2) (fun _ => (1:ℚ)/2) ()
      (by norm_num) (by norm_num) (by norm_num) (by norm_num)⟩

/-! ## UV displacement → normal reconstruction (`displacement2normal`, lines 124–141)

The raster at coarse UV resolution is texel-indexed by `ι`; per-texel
3-vectors live in `Fin 3 → ℚ`.  The renderer's `world2uv` unwrapping has
already produced `uv_pos`/`uv_norm`; the dense per-vertex normal
recomputation (`util.vertex_normals` over `dense_faces`, composed with
the inverse reshape/permute pair, all external to this source file) is
the abstract raster transformer `N`.  The final `F.interpolate` to the
texture resolution is likewise external and not part of this model. -/

/-- A per-texel 3-vector (position or normal). -/
abbrev V3 : Type := Fin 3 → ℚ

/-- `DECA.displacement2normal` at coarse UV resolution, before the final
resampling: mask `uv_z` by the coarse face/eye mask, offset the unwrapped
positions along the unwrapped normals by the masked displacement and the
fixed bias, recompute normals (`N`), then blend with the coarse normals
under the mask. -/
def displacement2normal {ι : Type} (N : (ι → V3) → (ι → V3))
    (faceEyeMaskCoarse fixed_uv_dis : ι → ℚ)
    (uv_z : ι → ℚ) (uv_pos uv_norm : ι → V3) : ι → V3 :=
  let uv_z_masked := fun t => uv_z t * faceEyeMaskCoarse t
  let uv_detail_vertices := fun t =>
    uv_pos t + uv_z_masked t • uv_norm t + fixed_uv_dis t • uv_norm t
  let uv_detail_normals := N uv_detail_vertices
  fun t => faceEyeMaskCoarse t • uv_detail_normals t + (1 - faceEyeMaskCoarse t) • uv_norm t

/-- C5: with an all-zero displacement field the pre-resampling raster
equals the unwrapped coarse normal at every texel where the face/eye mask
is zero, and at every texel it is the mask-weighted blend of the coarse
normal with the normal recomputed from `uv_pos + fixed_bias • uv_norm` —
the deviation inside the masked region enters only through the fixed bias
times the unwrapped normal fed to the detail-vertex recomputation. -/
theorem displacement2normal_zero_displacement {ι : Type} (N : (ι → V3) → (ι → V3))
    (mask bias uv_z : ι → ℚ) (uv_pos uv_norm : ι → V3)
    (hz : ∀ t, uv_z t = 0) :
    (∀ t, mask t = 0 → displacement2normal N mask bias uv_z uv_pos uv_norm t = uv_norm t) ∧
    (∀ t, displacement2normal N mask bias uv_z uv_pos uv_norm t =
      mask t • N (fun s => uv_pos s + bias s • uv_norm s) t + (1 - mask t) • uv_norm t) := by
  have harg : (fun s => uv_pos s + (uv_z s * mask s) • uv_norm s + bias s • uv_norm s) =
      fun s => uv_pos s + bias s • uv_norm s := by
    funext s
    rw [hz s, zero_mul, zero_smul, add_zero]
  constructor
  · intro t ht
    simp only [displacement2normal, ht, zero_smul, zero_add, sub_zero, one_smul]
  · intro t
    simp only [displacement2normal, harg]

/-- Witness for C5: one texel, identity recomputation, zero displacement. -/
theorem displacement2normal_zero_displacement_witness :
    (∀ t : Unit, (fun _ : Unit => (0 : ℚ)) t = 0) ∧
    ((∀ t : Unit, (fun _ : Unit => (0 : ℚ)) t = 0 →
        displacement2normal id (fun _ => (0 : ℚ)) (fun _ => (1 : ℚ)) (fun _ => (0 : ℚ))
          (fun _ _ => (2 : ℚ)) (fun _ _ => (3 : ℚ)) t = (fun _ _ => (3 : ℚ)) t) ∧
      (∀ t : Unit, displacement2normal id (fun _ => (0 : ℚ)) (fun _ => (1 : ℚ)) (fun _ => (0 : ℚ))
          (fun _ _ => (2 : ℚ)) (fun _ _ => (3 : ℚ)) t =
        (fun _ : Unit => (0 : ℚ)) t • id (fun (s : Unit) (j : Fin 3) =>
            (fun _ _ => (2 : ℚ)) s j + (fun _ => (1 : ℚ)) s • (fun _ _ => (3 : ℚ)) s j) t +
          (1 - (fun _ : Unit => (0 : ℚ)) t) • (fun _ _ => (3 : ℚ)) t)) :=
  ⟨fun _ => rfl,
    displacement2normal_zero_displacement id (fun _ => (0 : ℚ)) (fun _ => (1 : ℚ))
      (fun _ => (0 : ℚ)) (fun _ _ => (2 : ℚ)) (fun _ _ => (3 : ℚ)) (fun _ => rfl)⟩

/-! ## Orthographic projection and the axis-flip convention (lines 269–272) -/

/-- Camera parameter vector `cam = (scale, tx, ty)`. -/
structure Cam where
  scale : ℚ
  tx : ℚ
  ty : ℚ
  deriving DecidableEq, Repr

/-- A 3D point or per-vertex vector. -/
structure P3 where
  x : ℚ
  y : ℚ
  z : ℚ
  deriving DecidableEq, Repr

/-- Modelled from the spec: `util.batch_orth_proj` lives in
`decalib/utils/util.py`, which is not part of this source tree.  Per
§4.2 of the spec the orthographic projection applies the uniform scale
and the 2D translation to the first two coordinates and leaves the third
coordinate for occlusion ordering. -/
def batch_orth_proj (cam : Cam) (p : P3) : P3 :=
  ⟨cam.scale * (p.x + cam.tx), cam.scale * (p.y + cam.ty), p.z⟩

/-- The projection as used at every `decode` call site:
`trans_verts = batch_orth_proj(verts, cam); trans_verts[:,:,1:] = -trans_verts[:,:,1:]`
(vertical and occlusion coordinates negated after projection). -/
def projectVert (cam : Cam) (p : P3) : P3 :=
  let q := batch_orth_proj cam p
  ⟨q.x, -q.y, -q.z⟩

/-- C6 counterexample: with camera `(scale, tx, ty) = (1, 0, 1)` the
vertical translation breaks the claimed sign flip: projecting `(0, 1, 0)`
gives vertical output `-2`, but projecting the vertically negated input
`(0, -1, 0)` gives `0`, not `2`.  The projection is affine, not linear,
in the vertical coordinate. -/
theorem projectVert_not_odd_in_y :
    (projectVert ⟨1, 0, 1⟩ ⟨0, -1, 0⟩).y ≠ -(projectVert ⟨1, 0, 1⟩ ⟨0, 1, 0⟩).y := by
  norm_num [projectVert, batch_orth_proj]

/-- C6 amended: projecting the origin with scale 1 and translation
`(0, 0)` yields `(0, 0)`; and for every scale and horizontal translation
but vertical translation zero, negating the vertical input coordinate
negates the vertical output coordinate.  For nonzero vertical translation
the property fails (the map is affine, not linear). -/
theorem projectVert_conventions (s tx : ℚ) (p : P3) :
    projectVert ⟨1, 0, 0⟩ ⟨0, 0, 0⟩ = ⟨0, 0, 0⟩ ∧
    (projectVert ⟨s, tx, 0⟩ ⟨p.x, -p.y, p.z⟩).y = -(projectVert ⟨s, tx, 0⟩ p).y := by
  constructor
  · simp [projectVert, batch_orth_proj]
  · simp [projectVert, batch_orth_proj]

/-! ## Landmark visibility (`visofp`, lines 143–148, and line 351) -/

/-- `self.flame.seletec_3d68(normals)`: gather the 68 landmark rows.  The
FLAME module is external to this source tree; the gather is modelled as
selection along a fixed landmark index list. -/
def seletec_3d68 (idx : List Nat) (normals : List P3) : List P3 :=
  idx.map fun i => normals.getD i ⟨0, 0, 0⟩

/-- `DECA.visofp`: `vis68 = (normals68[:, :, 2:] < 0.1).float()`. -/
def visofp (idx : List Nat) (normals : List P3) : List ℚ :=
  (seletec_3d68 idx normals).map fun n => if n.z < 1 / 10 then 1 else 0

/-- `landmarks3d = torch.cat([landmarks3d, landmarks3d_vis], dim=2)`:
append the visibility value as one extra channel per landmark. -/
def catChannel (lmk : List (List ℚ)) (vis : List ℚ) : List (List ℚ) :=
  List.zipWith (fun l v => l ++ [v]) lmk vis

/-- C7: the visibility tensor has one entry per landmark index, every
entry is 0 or 1, the entry is 1 exactly when the selected landmark
normal's depth component is strictly below the threshold `0.1`, and
concatenation appends it to the landmark row as one extra channel. -/
theorem visofp_binary_threshold (idx : List Nat) (normals : List P3)
    (lmk : List (List ℚ)) (i : Nat) (hi : i < idx.length) (hlmk : lmk.length = idx.length) :
    (visofp idx normals).length = idx.length ∧
    (∀ v ∈ visofp idx normals, v = 0 ∨ v = 1) ∧
    (visofp idx normals).getD i 0 =
      (if ((seletec_3d68 idx normals).getD i ⟨0, 0, 0⟩).z < 1 / 10 then 1 else 0) ∧
    (catChannel lmk (visofp idx normals)).getD i [] =
      lmk.getD i [] ++ [(visofp idx normals).getD i 0] := by
  have hsel : (seletec_3d68 idx normals).length = idx.length := by
    simp [seletec_3d68]
  have hvis : (visofp idx normals).length = idx.length := by
    simp [visofp, hsel]
  have hiv : i < (visofp idx normals).length := by omega
  have his : i < (seletec_3d68 idx normals).length := by omega
  have hil : i < lmk.length := by omega
  have hic : i < (catChannel lmk (visofp idx normals)).length := by
    simp only [catChannel, List.length_zipWith]
    omega
  refine ⟨hvis, ?_, ?_, ?_⟩
  · intro v hv
    obtain ⟨n, _, hn⟩ := List.mem_map.1 hv
    by_cases h : n.z < 1 / 10
    · right; rw [← hn, if_pos h]
    · left; rw [← hn, if_neg h]
  · rw [List.getD_eq_getElem _ _ hiv, List.getD_eq_getElem _ _ his]
    simp [visofp]
  · rw [List.getD_eq_getElem _ _ hic, List.getD_eq_getElem _ _ hil,
      List.getD_eq_getElem _ _ hiv]
    simp [catChannel]

/-- Witness for C7: two landmarks, one facing the camera (`z = 0 < 0.1`),
one tilted away (`z = 1`). -/
theorem visofp_binary_threshold_witness :
    (0 < ([0, 1] : List Nat).length ∧ ([[5, 5], [6, 6]] : List (List ℚ)).length = ([0, 1] : List Nat).length) ∧
    ((visofp [0, 1] [⟨0, 0, 0⟩, ⟨0, 0, 1⟩]).length = ([0, 1] : List Nat).length ∧
      (∀ v ∈ visofp [0, 1] [⟨0, 0, 0⟩, ⟨0, 0, 1⟩], v = 0 ∨ v = 1) ∧
      (visofp [0, 1] [⟨0, 0, 0⟩, ⟨0, 0, 1⟩]).getD 0 0 =
        (if ((seletec_3d68 [0, 1] [⟨0, 0, 0⟩, ⟨0, 0, 1⟩]).getD 0 ⟨0, 0, 0⟩).z < 1 / 10 then 1 else 0) ∧
      (catChannel [[5, 5], [6, 6]] (visofp [0, 1] [⟨0, 0, 0⟩, ⟨0, 0, 1⟩])).getD 0 [] =
        ([[5, 5], [6, 6]] : List (List ℚ)).getD 0 [] ++ [(visofp [0, 1] [⟨0, 0, 0⟩, ⟨0, 0, 1⟩]).getD 0 0]) :=
  ⟨⟨by decide, by decide⟩,
    visofp_binary_threshold [0, 1] [⟨0, 0, 0⟩, ⟨0, 0, 1⟩] [[5, 5], [6, 6]] 0
      (by decide) (by decide)⟩

/-! ## Visualization composer (`visualize`, lines 450–467)

The resize and `make_grid` steps only rearrange pixel values and are
external (`torchvision`); what remains per pixel is the conversion
`min(max(v*255, 0), 255)` after the axis assertion. -/

/-- `DECA.visualize` per pixel: `assert dim == 1 or dim == 2`, then
convert the assembled grid from the normalized range to 8-bit values
clamped into `[0, 255]`. -/
def visualize (dim : ℤ) (grid : List ℚ) : Except DecaErr (List ℚ) :=
  if dim = 1 ∨ dim = 2 then
    .ok (grid.map fun v => min (max (v * 255) 0) 255)
  else
    .error .invalidAxis

/-- C9: `visualize` fails with the invalid-axis error whenever the
orientation selector is neither 1 nor 2, producing no output; for
selector 1 or 2 it succeeds and every produced pixel lies in `[0, 255]`. -/
theorem visualize_axis_and_clamp (dim : ℤ) (grid : List ℚ) :
    (dim ≠ 1 ∧ dim ≠ 2 → visualize dim grid = .error .invalidAxis) ∧
    (dim = 1 ∨ dim = 2 → ∃ out, visualize dim grid = .ok out ∧
      ∀ p ∈ out, 0 ≤ p ∧ p ≤ 255) := by
  constructor
  · intro h
    have hcond : ¬(dim = 1 ∨ dim = 2) := by
      rintro (h1 | h2)
      · exact h.1 h1
      · exact h.2 h2
    simp only [visualize, if_neg hcond]
  · intro h
    refine ⟨grid.map fun v => min (max (v * 255) 0) 255, by simp [visualize, h], ?_⟩
    intro p hp
    obtain ⟨v, _, hv⟩ := List.mem_map.1 hp
    constructor
    · rw [← hv]
      exact le_min (le_max_right _ _) (by norm_num)
    · rw [← hv]
      exact min_le_right _ _

/-- Witness for C9: selector 3 is rejected; selector 2 clamps `[2, -1]`
into range. -/
theorem visualize_axis_and_clamp_witness :
    (((3 : ℤ) ≠ 1 ∧ (3 : ℤ) ≠ 2) ∧ visualize 3 [2, -1] = .error .invalidAxis) ∧
    (((2 : ℤ) = 1 ∨ (2 : ℤ) = 2) ∧ ∃ out, visualize 2 [2, -1] = .ok out ∧
      ∀ p ∈ out, 0 ≤ p ∧ p ≤ 255) :=
  ⟨⟨by decide, (visualize_axis_and_clamp 3 [2, -1]).1 (by decide)⟩,
    ⟨by decide, (visualize_axis_and_clamp 2 [2, -1]).2 (by decide)⟩⟩

/-! ## Definedness of the visualization path of `decode` (lines 283–358)

`uv_texture_gt`, `uv_face_eye_mask` and `uv_detail_normals` are local
variables assigned only inside the `if rendering:` block, yet the
`if return_vis:` block references all three unconditionally (the render
call and the detail-normal resampling).  Python name resolution is
modelled by `Option`-valued locals: `none` is an unbound local, and
reading it raises `nameError`. -/

/-- The rendering-dependent locals of `decode`, each bound only when the
`rendering` branch ran. -/
structure RenderLocals where
  tex_gt : Option (List ℚ)
  face_eye_mask : Option (List ℚ)
  detail_normals : Option (List ℚ)

/-- Locals after the `if rendering:` block of `decode`. -/
def renderLocals (rendering : Bool) (tex mask normals : List ℚ) : RenderLocals :=
  if rendering then ⟨some tex, some mask, some normals⟩ else ⟨none, none, none⟩

/-- The visualization tail of `decode`: with `return_vis` it dereferences
the three rendering-dependent locals (for the render call and the
detail-normal resampling); without it, it returns the operation
dictionary untouched. -/
def decodeVisPath (rendering return_vis : Bool) (tex mask normals : List ℚ) :
    Except DecaErr (Option (List ℚ × List ℚ × List ℚ)) :=
  let ls := renderLocals rendering tex mask normals
  if return_vis then
    match ls.tex_gt, ls.face_eye_mask, ls.detail_normals with
    | some t, some m, some n => .ok (some (t, m, n))
    | _, _, _ => .error .nameError
  else
    .ok none

/-- C10: calling the `decode` visualization path with `return_vis` and
`rendering = false` dereferences never-assigned locals and fails with the
unbound-name error; with `rendering = true` that error branch is
unreachable for either value of `return_vis`. -/
theorem decodeVisPath_requires_rendering (tex mask normals : List ℚ) :
    decodeVisPath false true tex mask normals = .error .nameError ∧
    ∀ rv : Bool, ∃ r, decodeVisPath true rv tex mask normals = .ok r := by
  refine ⟨rfl, ?_⟩
  intro rv
  cases rv
  · exact ⟨none, rfl⟩
  · exact ⟨some (tex, mask, normals), rfl⟩

end Deca
